import Mathlib

/-!
Verification of the nayud-batch replication core against its specification.

The development shallowly embeds the relevant Rust code:
* `src/replication/mod.rs` — `OutboxRecord::encode/decode`, `Outbox::read_from`,
  `Outbox::pending_count`, `ReplicationManager::replay_and_mark`,
  `ReplicationManager::write_simple`, `ReplicationManager::write_watermark_for`,
  `FailoverState`, `FailoverManager`;
* `src/db/mod.rs` — `quote_ident`, `DbClients::upsert_watermark`.

Bytes are modelled as `Nat` (values < 256 in any real log), byte strings as
`List Nat`; a Rust `String` is represented by its UTF-8 byte content, so
`str::as_bytes` is the identity and `String::from_utf8` is a validity check.
Machine-integer casts (`as u16`, `as u32`) appear as explicit `% 2 ^ k`
reductions inside the little-endian serializers.  File contents are passed
explicitly: a log file is a `List Nat` and a file offset a `Nat`, so
`read_exact` of `n` bytes at `off` succeeds exactly when `off + n ≤ length`.
Loops that Rust bounds by `max` take `max` as fuel; the one unbounded loop
(`pending_count`) consumes at least `HEADER_LEN` bytes per iteration, so fuel
`log.length + 1` is proved sufficient (`pendingAux_fuel_stable`).
-/

set_option autoImplicit false

namespace NayudBatch

/-- Little-endian byte encoding of `n` on `k` bytes, as produced by
`uN::to_le_bytes` after an `as uN` truncating cast (the cast is the implicit
`% 256 ^ k`). -/
def leBytes : Nat → Nat → List Nat
  | 0, _ => []
  | k + 1, n => n % 256 :: leBytes k (n / 256)

/-- Little-endian value of a byte list, as computed by `uN::from_le_bytes`. -/
def leVal : List Nat → Nat
  | [] => 0
  | b :: bs => b + 256 * leVal bs

/-- Contiguous slice of `n` bytes of `l` starting at offset `off`; models a
successful `read_exact` at a seek position. -/
def slice (l : List Nat) (off n : Nat) : List Nat :=
  (l.drop off).take n

/-- UTF-8 continuation byte test (`0x80 ..= 0xBF`). -/
def isContByte (b : Nat) : Bool :=
  128 ≤ b && b ≤ 191

/-- UTF-8 validity of a byte sequence, following the table used by Rust's
`String::from_utf8` (excluding overlong forms, surrogates and values above
U+10FFFF). -/
def isValidUtf8 : List Nat → Bool
  | [] => true
  | b :: bs =>
    if b ≤ 0x7F then isValidUtf8 bs
    else if 0xC2 ≤ b && b ≤ 0xDF then
      match bs with
      | c1 :: rest => isContByte c1 && isValidUtf8 rest
      | [] => false
    else if b = 0xE0 then
      match bs with
      | c1 :: c2 :: rest => (0xA0 ≤ c1 && c1 ≤ 0xBF) && isContByte c2 && isValidUtf8 rest
      | _ => false
    else if (0xE1 ≤ b && b ≤ 0xEC) || b = 0xEE || b = 0xEF then
      match bs with
      | c1 :: c2 :: rest => isContByte c1 && isContByte c2 && isValidUtf8 rest
      | _ => false
    else if b = 0xED then
      match bs with
      | c1 :: c2 :: rest => (0x80 ≤ c1 && c1 ≤ 0x9F) && isContByte c2 && isValidUtf8 rest
      | _ => false
    else if b = 0xF0 then
      match bs with
      | c1 :: c2 :: c3 :: rest =>
        (0x90 ≤ c1 && c1 ≤ 0xBF) && isContByte c2 && isContByte c3 && isValidUtf8 rest
      | _ => false
    else if 0xF1 ≤ b && b ≤ 0xF3 then
      match bs with
      | c1 :: c2 :: c3 :: rest =>
        isContByte c1 && isContByte c2 && isContByte c3 && isValidUtf8 rest
      | _ => false
    else if b = 0xF4 then
      match bs with
      | c1 :: c2 :: c3 :: rest =>
        (0x80 ≤ c1 && c1 ≤ 0x8F) && isContByte c2 && isContByte c3 && isValidUtf8 rest
      | _ => false
    else false

/-- Model of `String::from_utf8(bytes).ok()`: returns the byte content when it
is valid UTF-8 (a Rust `String` is represented by its UTF-8 bytes). -/
def string_from_utf8 (bs : List Nat) : Option (List Nat) :=
  if isValidUtf8 bs then some bs else none

/-- The two clusters (`enum Cluster`). -/
inductive Cluster
  | Active
  | Passive
deriving DecidableEq

/-- Outbox routing target (`enum OutboxTarget`). -/
inductive OutboxTarget
  | Active
  | Passive
  | Both
deriving DecidableEq

/-- `struct OutboxRecord`; the two Rust `String` fields are carried as their
UTF-8 bytes, `params` as raw byte blobs. -/
structure OutboxRecord where
  idempotency_key : List Nat
  statement : List Nat
  params : List (List Nat)
  target : OutboxTarget
  created_ms : Nat
deriving DecidableEq

/-- Tag byte written by `OutboxRecord::encode` for the target. -/
def targetByte : OutboxTarget → Nat
  | .Active => 1
  | .Passive => 2
  | .Both => 3

/-- Inverse tag match used by `OutboxRecord::decode`. -/
def byteToTarget (t : Nat) : Option OutboxTarget :=
  if t = 1 then some .Active
  else if t = 2 then some .Passive
  else if t = 3 then some .Both
  else none

/-- Parameter section of the payload: for each param, `len as u32`
little-endian followed by the bytes (`OutboxRecord::encode`, params loop). -/
def encodeParams : List (List Nat) → List Nat
  | [] => []
  | p :: ps => leBytes 4 p.length ++ p ++ encodeParams ps

/-- `OutboxRecord::encode`: `created_ms` (u64 LE), target tag byte,
`key_len as u16` LE and key bytes, `stmt_len as u32` LE and statement bytes,
`pcount as u32` LE and the parameter section. -/
def OutboxRecord.encode (r : OutboxRecord) : List Nat :=
  leBytes 8 r.created_ms ++ [targetByte r.target] ++
    leBytes 2 r.idempotency_key.length ++ r.idempotency_key ++
    leBytes 4 r.statement.length ++ r.statement ++
    leBytes 4 r.params.length ++ encodeParams r.params

/-- Reading `n` bytes from the front of a buffer: the checked
`payload.len() < n` guard plus the split used throughout
`OutboxRecord::decode`. -/
def readBytes (n : Nat) (bs : List Nat) : Option (List Nat × List Nat) :=
  if n ≤ bs.length then some (bs.take n, bs.drop n) else none

/-- Parameter-decoding loop of `OutboxRecord::decode`: `pcount` repetitions of
a u32 LE length followed by that many bytes. -/
def decodeParams : Nat → List Nat → Option (List (List Nat) × List Nat)
  | 0, bs => some ([], bs)
  | n + 1, bs =>
    match readBytes 4 bs with
    | none => none
    | some (lb, bs1) =>
      match readBytes (leVal lb) bs1 with
      | none => none
      | some (p, bs2) =>
        match decodeParams n bs2 with
        | none => none
        | some (ps, bs3) => some (p :: ps, bs3)

/-- Tail of `OutboxRecord::decode` after the key has been extracted:
statement length and bytes, statement UTF-8 check, parameter count and the
parameter loop. -/
def decodeAfterKey (key : List Nat) (target : OutboxTarget) (created_ms : Nat)
    (p4 : List Nat) : Option OutboxRecord :=
  match readBytes 4 p4 with
  | none => none
  | some (slb, p5) =>
    match readBytes (leVal slb) p5 with
    | none => none
    | some (stmtb, p6) =>
      match string_from_utf8 stmtb with
      | none => none
      | some stmt =>
        match readBytes 4 p6 with
        | none => none
        | some (pcb, p7) =>
          match decodeParams (leVal pcb) p7 with
          | none => none
          | some (params, _) =>
            some ⟨key, stmt, params, target, created_ms⟩

/-- `OutboxRecord::decode`: the early-return chain of the Rust function;
trailing bytes after the parameter section are ignored, exactly as in the
source. -/
def OutboxRecord.decode (payload : List Nat) : Option OutboxRecord :=
  match readBytes 8 payload with
  | none => none
  | some (msb, p1) =>
    match readBytes 1 p1 with
    | none => none
    | some (tb, p2) =>
      match byteToTarget (leVal tb) with
      | none => none
      | some target =>
        match readBytes 2 p2 with
        | none => none
        | some (klb, p3) =>
          match readBytes (leVal klb) p3 with
          | none => none
          | some (keyb, p4) =>
            match string_from_utf8 keyb with
            | none => none
            | some key => decodeAfterKey key target (leVal msb) p4

/-- Frame magic `0x4E415944` (`"NAYD"`). -/
def OB_MAGIC : Nat := 0x4E415944

/-- Frame format version. -/
def OB_VERSION : Nat := 1

/-- Frame header length: magic u32 + version u16 + payload_len u32. -/
def HEADER_LEN : Nat := 10

/-- One iteration of the `Outbox::read_from` loop at `offset`: read and check
the 10-byte header (magic, version, payload length), read the payload, decode
it; `none` on a short header read, wrong magic or version, short payload read,
or undecodable payload — every one of Rust's `break` paths.  On success,
return the end offset of the frame together with the decoded record. -/
def frameAt (log : List Nat) (offset : Nat) : Option (Nat × OutboxRecord) :=
  if offset + HEADER_LEN ≤ log.length then
    let magic := leVal (slice log offset 4)
    let version := leVal (slice log (offset + 4) 2)
    let plen := leVal (slice log (offset + 6) 4)
    if magic = OB_MAGIC ∧ version = OB_VERSION then
      if offset + HEADER_LEN + plen ≤ log.length then
        match OutboxRecord.decode (slice log (offset + HEADER_LEN) plen) with
        | some rec => some (offset + HEADER_LEN + plen, rec)
        | none => none
      else none
    else none
  else none

/-- `Outbox::read_from`: starting at `offset`, parse up to `max` frames; stop
silently at the first failing iteration, returning the `(start, end, record)`
triples parsed so far.  Rust's `for _ in 0..max` loop bound is the fuel
argument. -/
def read_from (log : List Nat) : Nat → Nat → List (Nat × Nat × OutboxRecord)
  | _, 0 => []
  | offset, max + 1 =>
    match frameAt log offset with
    | some (e, rec) => (offset, e, rec) :: read_from log e max
    | none => []

/-- The Rust function returns `AppResult`; after the file open (which depends
only on the environment, not on the log content) the parse loop has no error
path, so on given content it always produces `Ok`. -/
def read_from_result (log : List Nat) (offset max : Nat) :
    Except String (List (Nat × Nat × OutboxRecord)) :=
  Except.ok (read_from log offset max)

/-- `read_from` with unbounded `max`: every parsed frame consumes at least
`HEADER_LEN` bytes of the file, so `log.length + 1` rounds of fuel are never
the binding constraint (`read_from_fuel_stable` certifies this). -/
def read_all (log : List Nat) (offset : Nat) : List (Nat × Nat × OutboxRecord) :=
  read_from log offset (log.length + 1)

/-- Loop body of `Outbox::pending_count` with explicit fuel: count frames with
a readable, well-formed header, skipping over `plen` payload bytes with a seek
that cannot fail. -/
def pendingAux (log : List Nat) : Nat → Nat → Nat
  | _, 0 => 0
  | offset, fuel + 1 =>
    if offset + HEADER_LEN ≤ log.length then
      let magic := leVal (slice log offset 4)
      let version := leVal (slice log (offset + 4) 2)
      let plen := leVal (slice log (offset + 6) 4)
      if magic = OB_MAGIC ∧ version = OB_VERSION then
        1 + pendingAux log (offset + HEADER_LEN + plen) fuel
      else 0
    else 0

/-- `Outbox::pending_count`, counting from the stored cursor; the Rust loop is
unbounded and each iteration consumes at least `HEADER_LEN` bytes, so fuel
`log.length + 1` computes its exact value (`pendingAux_fuel_stable`). -/
def pending_count (log : List Nat) (cursor : Nat) : Nat :=
  pendingAux log cursor (log.length + 1)

/-- Side condition for the amended C6: the header-driven scan from `offset`
never meets a frame whose header is valid but whose payload is short or
undecodable. -/
def cleanAux (log : List Nat) : Nat → Nat → Bool
  | _, 0 => true
  | offset, fuel + 1 =>
    if offset + HEADER_LEN ≤ log.length then
      let magic := leVal (slice log offset 4)
      let version := leVal (slice log (offset + 4) 2)
      let plen := leVal (slice log (offset + 6) 4)
      if magic = OB_MAGIC ∧ version = OB_VERSION then
        if offset + HEADER_LEN + plen ≤ log.length then
          match OutboxRecord.decode (slice log (offset + HEADER_LEN) plen) with
          | some _ => cleanAux log (offset + HEADER_LEN + plen) fuel
          | none => false
        else false
      else true
    else true

/-- Fuel-closed form of `cleanAux`, mirroring `pending_count`. -/
def cleanFrom (log : List Nat) (cursor : Nat) : Bool :=
  cleanAux log cursor (log.length + 1)

/-- Replay loop body shared by `replay_and_mark` and `replay_with`: walk the
batch in order; on a successful apply store the frame's end offset as the new
cursor and count it; on the first failure stop.  Returns
`(final cursor, processed)`.  The apply outcome is an oracle over the
`(start, end, record)` triple, covering any pattern of per-record successes
and failures. -/
def runBatch (applyOk : Nat × Nat × OutboxRecord → Bool) :
    List (Nat × Nat × OutboxRecord) → Nat → Nat × Nat
  | [], c => (c, 0)
  | f :: rest, c =>
    if applyOk f then
      let r := runBatch applyOk rest f.2.1
      (r.1, r.2 + 1)
    else (c, 0)

/-- `ReplicationManager::replay_and_mark` restricted to its outbox effect:
load the cursor, read a batch of at most `max` frames, apply them in order
until the first failure, persisting each successful frame's end offset.
Returns `(new cursor, processed)`; the subsequent watermark writes do not
touch the outbox. -/
def replay_and_mark (log : List Nat) (cursor max : Nat)
    (applyOk : Nat × Nat × OutboxRecord → Bool) : Nat × Nat :=
  runBatch applyOk (read_from log cursor max) cursor

/-- Cursor values observed before and after each call of a sequence of
`replay_and_mark` invocations (each with its own `max` and its own pattern of
apply outcomes). -/
def cursorTrace (log : List Nat) :
    List (Nat × (Nat × Nat × OutboxRecord → Bool)) → Nat → List Nat
  | [], c => [c]
  | (max, ap) :: calls, c =>
    c :: cursorTrace log calls (replay_and_mark log c max ap).1

/-- `struct FailoverState`; `last_switch : Option<Instant>` is abstracted to
the flag recording whether a switch has been committed (its time value is
wall-clock environment). -/
structure FailoverState where
  primary : Cluster
  last_active_ok : Bool
  last_passive_ok : Bool
  consecutive_active_fail : Nat
  consecutive_active_success : Nat
  consecutive_passive_success : Nat
  pending : Option Cluster
  last_switch_set : Bool
deriving DecidableEq

/-- `FailoverState::default()`: primary Active, all counters zero. -/
def FailoverState.initial : FailoverState :=
  ⟨Cluster.Active, false, false, 0, 0, 0, none, false⟩

/-- `FAIL_THRESHOLD` from the source. -/
def FAIL_THRESHOLD : Nat := 3

/-- `RECOVER_THRESHOLD` from the source. -/
def RECOVER_THRESHOLD : Nat := 5

/-- Saturating `u32` increment (`u32::saturating_add(1)`). -/
def satInc (n : Nat) : Nat :=
  min (n + 1) (2 ^ 32 - 1)

/-- `FailoverState::update_with`: record the tick's liveness, update the
saturating counters, and recompute `pending` from scratch. -/
def FailoverState.update_with (s : FailoverState) (active_ok passive_ok : Bool) :
    FailoverState :=
  let caf := if active_ok then 0 else satInc s.consecutive_active_fail
  let cas := if active_ok then satInc s.consecutive_active_success else 0
  let cps := if passive_ok then satInc s.consecutive_passive_success else 0
  let pending :=
    match s.primary with
    | Cluster.Active =>
      if !active_ok && decide (caf ≥ FAIL_THRESHOLD) && passive_ok then
        some Cluster.Passive
      else none
    | Cluster.Passive =>
      if active_ok && decide (cas ≥ RECOVER_THRESHOLD) then
        some Cluster.Active
      else none
  ⟨s.primary, active_ok, passive_ok, caf, cas, cps, pending, s.last_switch_set⟩

/-- `FailoverState::commit_switch`: adopt the new primary, stamp the switch,
zero every counter and clear `pending`. -/
def FailoverState.commit_switch (s : FailoverState) (dst : Cluster) : FailoverState :=
  ⟨dst, s.last_active_ok, s.last_passive_ok, 0, 0, 0, none, true⟩

/-- `FailoverManager::maybe_switch`: commit the pending switch when forced
ready or when the readiness probe (an oracle over the clusters) agrees. -/
def maybe_switch (force_ready : Bool) (ready : Cluster → Cluster → Bool)
    (s : FailoverState) : FailoverState :=
  match s.pending with
  | some dst => if force_ready || ready s.primary dst then s.commit_switch dst else s
  | none => s

/-- `FailoverManager::tick_with_status`: feed one synthetic liveness
observation, then `maybe_switch`. -/
def tick_with_status (force_ready : Bool) (ready : Cluster → Cluster → Bool)
    (s : FailoverState) (a_ok p_ok : Bool) : FailoverState :=
  maybe_switch force_ready ready (s.update_with a_ok p_ok)

/-- Iterate `tick_with_status` over a list of liveness observations. -/
def run_ticks (force_ready : Bool) (ready : Cluster → Cluster → Bool)
    (s : FailoverState) (obs : List (Bool × Bool)) : FailoverState :=
  obs.foldl (fun st ab => tick_with_status force_ready ready st ab.1 ab.2) s

/-- In-memory view of the outbox directory: log file content plus cursor. -/
structure OutboxState where
  log : List Nat
  cursor : Nat
deriving DecidableEq

/-- `Outbox::append`: stamp `created_ms` when zero, frame the encoded payload
behind magic, version and `payload_len as u32`, and return the offset just
past the written frame (`old file length + header + payload_len as u32`). -/
def outboxAppend (ob : OutboxState) (nowMs : Nat) (rec : OutboxRecord) :
    OutboxState × Nat :=
  let rec' := if rec.created_ms = 0 then { rec with created_ms := nowMs } else rec
  let payload := rec'.encode
  let frame := leBytes 4 OB_MAGIC ++ leBytes 2 OB_VERSION ++
    leBytes 4 payload.length ++ payload
  (⟨ob.log ++ frame, ob.cursor⟩, ob.log.length + HEADER_LEN + payload.length % 2 ^ 32)

/-- `struct ReplicationManager` (keyspace configuration omitted where a claim
does not mention it). -/
structure ReplicationManager where
  outbox : Option OutboxState
  active_keyspace : Option String
  passive_keyspace : Option String

/-- `OutboxRecord::new_simple`: empty params, zero `created_ms`. -/
def new_simple (key cql : List Nat) (target : OutboxTarget) : OutboxRecord :=
  ⟨key, cql, [], target, 0⟩

/-- `ReplicationManager::enqueue`: append to the outbox when configured,
otherwise return the error `"outbox not configured"`. -/
def enqueue (m : ReplicationManager) (nowMs : Nat) (rec : OutboxRecord) :
    Except String Nat × ReplicationManager :=
  match m.outbox with
  | some ob =>
    let (ob', endOff) := outboxAppend ob nowMs rec
    (Except.ok endOff, { m with outbox := some ob' })
  | none => (Except.error "outbox not configured", m)

/-- Per-target disjunction of execute successes computed by
`write_simple` (`any_ok`). -/
def anyOkOf (target : OutboxTarget) (execA execP : Bool) : Bool :=
  match target with
  | .Active => execA
  | .Passive => execP
  | .Both => execA || execP

/-- `ReplicationManager::write_simple`: attempt the statement on each resolved
target (outcomes are the oracles `execA`, `execP`, false when the session is
absent); on a per-target failure enqueue a single-target record, discarding
the enqueue result with `let _ = ...`; always return `Ok(any_ok)`. -/
def write_simple (m : ReplicationManager) (nowMs : Nat) (key cql : List Nat)
    (target : OutboxTarget) (execA execP : Bool) :
    Except String Bool × ReplicationManager :=
  match target with
  | .Active =>
    if execA then (Except.ok true, m)
    else
      let m' := (enqueue m nowMs (new_simple key cql .Active)).2
      (Except.ok false, m')
  | .Passive =>
    if execP then (Except.ok true, m)
    else
      let m' := (enqueue m nowMs (new_simple key cql .Passive)).2
      (Except.ok false, m')
  | .Both =>
    let m1 := if execA then m else (enqueue m nowMs (new_simple key cql .Active)).2
    let m2 := if execP then m1 else (enqueue m1 nowMs (new_simple key cql .Passive)).2
    (Except.ok (execA || execP), m2)

/-- Character-level body of Rust's `name.replace('"', "\"\"")`: double every
double-quote character. -/
def escapeQuotes : List Char → List Char
  | [] => []
  | c :: cs => if c = '"' then '"' :: '"' :: escapeQuotes cs else c :: escapeQuotes cs

/-- `quote_ident` from `src/db/mod.rs`: wrap in double quotes, escaping an
embedded `"` as `""`. -/
def quote_ident (name : String) : String :=
  "\"" ++ String.mk (escapeQuotes name.data) ++ "\""

/-- The `CREATE TABLE` statement built by
`ReplicationManager::write_watermark_for`; the keyspace is interpolated raw. -/
def write_watermark_create_cql (ks : String) : String :=
  "CREATE TABLE IF NOT EXISTS " ++ ks ++
    ".repl_watermark (id tinyint PRIMARY KEY, last_applied_log_id bigint, heartbeat_ms bigint)"

/-- The `INSERT` statement built by
`ReplicationManager::write_watermark_for`; the keyspace is interpolated raw
and the row id literal is `0`. -/
def write_watermark_upsert_cql (ks : String) (last_id now_ms : Nat) : String :=
  "INSERT INTO " ++ ks ++
    ".repl_watermark (id, last_applied_log_id, heartbeat_ms) VALUES (0, " ++
    toString last_id ++ ", " ++ toString now_ms ++ ")"

/-- The `INSERT` statement built by `DbClients::upsert_watermark`; the
keyspace goes through `quote_ident` and the row id literal is `1`. -/
def upsert_watermark_cql (ks : String) (last_id now_ms : Nat) : String :=
  "INSERT INTO " ++ quote_ident ks ++
    ".repl_watermark (id, last_applied_log_id, heartbeat_ms) VALUES (1, " ++
    toString last_id ++ ", " ++ toString now_ms ++ ")"

/-- Concrete record used by witnesses: empty key, empty statement, no params. -/
def rec0 : OutboxRecord := ⟨[], [], [], .Active, 0⟩

/-- Concrete well-formed one-frame log: header plus the 19-byte payload of
`rec0`. -/
def frame0 : List Nat :=
  leBytes 4 OB_MAGIC ++ leBytes 2 OB_VERSION ++ leBytes 4 rec0.encode.length ++ rec0.encode

/-- Concrete log whose single frame has a valid header (`plen = 1`) but an
undecodable 1-byte payload. -/
def badLog : List Nat :=
  [0x44, 0x59, 0x41, 0x4E, 0x01, 0x00, 0x01, 0x00, 0x00, 0x00, 0x00]

/-! ### Helper lemmas -/

@[simp]
theorem length_leBytes : ∀ (k n : Nat), (leBytes k n).length = k
  | 0, _ => rfl
  | k + 1, n => by simp [leBytes, length_leBytes k]

theorem leVal_leBytes : ∀ (k n : Nat), leVal (leBytes k n) = n % 256 ^ k
  | 0, n => by simp [leBytes, leVal, Nat.mod_one]
  | k + 1, n => by
    have ih := leVal_leBytes k (n / 256)
    have hpow : (256 : Nat) ^ (k + 1) = 256 * 256 ^ k := by ring
    simp only [leBytes, leVal, ih, hpow]
    rw [Nat.mod_mul]

theorem leVal_leBytes_of_lt {k n : Nat} (h : n < 256 ^ k) :
    leVal (leBytes k n) = n := by
  rw [leVal_leBytes, Nat.mod_eq_of_lt h]

theorem readBytes_append (a b : List Nat) : readBytes a.length (a ++ b) = some (a, b) := by
  unfold readBytes
  rw [if_pos (by simp), List.take_left, List.drop_left]

theorem readBytes_leBytes (k n : Nat) (rest : List Nat) :
    readBytes k (leBytes k n ++ rest) = some (leBytes k n, rest) := by
  have h := readBytes_append (leBytes k n) rest
  rwa [length_leBytes] at h

theorem readBytes_cons_one (t : Nat) (rest : List Nat) :
    readBytes 1 (t :: rest) = some ([t], rest) :=
  readBytes_append [t] rest

theorem leVal_singleton (t : Nat) : leVal [t] = t := by
  simp [leVal]

theorem byteToTarget_targetByte (tg : OutboxTarget) :
    byteToTarget (targetByte tg) = some tg := by
  cases tg <;> rfl

theorem string_from_utf8_of_valid {l : List Nat} (h : isValidUtf8 l = true) :
    string_from_utf8 l = some l := by
  simp [string_from_utf8, h]

theorem decodeParams_encodeParams :
    ∀ (ps : List (List Nat)) (tail : List Nat),
      (∀ p ∈ ps, p.length < 2 ^ 32) →
      decodeParams ps.length (encodeParams ps ++ tail) = some (ps, tail)
  | [], tail, _ => by simp [decodeParams, encodeParams]
  | p :: ps, tail, h => by
    have hp : p.length < 256 ^ 4 := by
      have := h p (by simp)
      omega
    have ih := decodeParams_encodeParams ps tail (fun q hq => h q (by simp [hq]))
    simp only [encodeParams, List.length_cons, decodeParams, List.append_assoc,
      readBytes_leBytes, leVal_leBytes, Nat.mod_eq_of_lt hp, readBytes_append, ih]

theorem decodeParams_encodeParams_nil (ps : List (List Nat))
    (h : ∀ p ∈ ps, p.length < 2 ^ 32) :
    decodeParams ps.length (encodeParams ps) = some (ps, []) := by
  have := decodeParams_encodeParams ps [] h
  simpa using this

/-! ### C4: decode is a left inverse of encode on valid records -/

/-- C4: for every valid `OutboxRecord` — idempotency key at most 65535 bytes,
statement and every parameter at most `2 ^ 32 - 1` bytes, key and statement
valid UTF-8, together with the bounds the Rust types impose on the remaining
fields (`created_ms` is a `u64`, and the `pcount as u32` cast requires at most
`2 ^ 32 - 1` parameters) — decoding the encoded payload returns exactly the
original record: `OutboxRecord::decode(rec.encode()) = Some(rec)`. -/
theorem decode_encode_roundtrip (r : OutboxRecord)
    (hk : isValidUtf8 r.idempotency_key = true)
    (hkl : r.idempotency_key.length ≤ 65535)
    (hs : isValidUtf8 r.statement = true)
    (hsl : r.statement.length ≤ 2 ^ 32 - 1)
    (hpl : ∀ p ∈ r.params, p.length ≤ 2 ^ 32 - 1)
    (hpc : r.params.length ≤ 2 ^ 32 - 1)
    (hms : r.created_ms < 2 ^ 64) :
    OutboxRecord.decode r.encode = some r := by
  obtain ⟨key, stmt, ps, tg, ms⟩ := r
  simp only at hk hkl hs hsl hpl hpc hms
  have e2 : (256 : Nat) ^ 2 = 65536 := by norm_num
  have e4 : (256 : Nat) ^ 4 = 4294967296 := by norm_num
  have e8 : (256 : Nat) ^ 8 = 18446744073709551616 := by norm_num
  have t32 : (2 : Nat) ^ 32 = 4294967296 := by norm_num
  have t64 : (2 : Nat) ^ 64 = 18446744073709551616 := by norm_num
  have hkl2 : key.length < 256 ^ 2 := by omega
  have hsl4 : stmt.length < 256 ^ 4 := by omega
  have hpc4 : ps.length < 256 ^ 4 := by omega
  have hms8 : ms < 256 ^ 8 := by omega
  have hdp : decodeParams ps.length (encodeParams ps) = some (ps, []) :=
    decodeParams_encodeParams_nil ps (fun p hp => by have := hpl p hp; omega)
  simp only [OutboxRecord.encode, OutboxRecord.decode, decodeAfterKey,
    List.append_assoc, List.singleton_append, List.cons_append, List.nil_append,
    readBytes_leBytes, readBytes_cons_one, leVal_singleton,
    byteToTarget_targetByte, leVal_leBytes, Nat.mod_eq_of_lt hkl2,
    Nat.mod_eq_of_lt hsl4, Nat.mod_eq_of_lt hpc4, Nat.mod_eq_of_lt hms8,
    readBytes_append, string_from_utf8_of_valid hk, string_from_utf8_of_valid hs, hdp]

/-- Witness for C4 at the concrete record `rec0`. -/
theorem decode_encode_roundtrip_witness :
    isValidUtf8 rec0.idempotency_key = true ∧
    rec0.idempotency_key.length ≤ 65535 ∧
    OutboxRecord.decode rec0.encode = some rec0 :=
  ⟨by decide, by decide,
    decode_encode_roundtrip rec0 (by decide) (by decide) (by decide) (by decide)
      (by decide) (by decide) (by decide)⟩

/-! ### C9: u16 truncation of oversized idempotency keys -/

theorem readBytes_append_left {n : Nat} (a b : List Nat) (h : n ≤ a.length) :
    readBytes n (a ++ b) = some (a.take n, a.drop n ++ b) := by
  unfold readBytes
  rw [if_pos (by simp only [List.length_append]; omega),
    List.take_append_of_le_length h, List.drop_append_of_le_length h]

theorem decodeAfterKey_key {key : List Nat} {tg : OutboxTarget} {ms : Nat}
    {bs : List Nat} {r' : OutboxRecord}
    (h : decodeAfterKey key tg ms bs = some r') : r'.idempotency_key = key := by
  unfold decodeAfterKey at h
  repeat' split at h
  all_goals first
    | (injection h with h2; subst h2; rfl)
    | exact absurd h (by simp)

theorem string_from_utf8_some {a b : List Nat} (h : string_from_utf8 a = some b) :
    b = a := by
  unfold string_from_utf8 at h
  split at h
  · exact (Option.some.inj h).symm
  · exact absurd h (by simp)

theorem decode_encode_key_length {r r' : OutboxRecord}
    (h : OutboxRecord.decode r.encode = some r') :
    r'.idempotency_key.length = r.idempotency_key.length % 65536 := by
  obtain ⟨key, stmt, ps, tg, ms⟩ := r
  dsimp only
  have hle : key.length % 256 ^ 2 ≤ key.length := Nat.mod_le _ _
  simp only [OutboxRecord.encode, OutboxRecord.decode, List.append_assoc,
    List.singleton_append, List.cons_append, List.nil_append, readBytes_leBytes,
    readBytes_cons_one, leVal_singleton, byteToTarget_targetByte, leVal_leBytes,
    readBytes_append_left _ _ hle] at h
  rcases hv : string_from_utf8 (key.take (key.length % 256 ^ 2)) with _ | key'
  · rw [hv] at h
    exact absurd h (by simp)
  · rw [hv] at h
    have hk' : r'.idempotency_key = key' := decodeAfterKey_key h
    have hkv : key' = key.take (key.length % 256 ^ 2) := string_from_utf8_some hv
    have e2 : (256 : Nat) ^ 2 = 65536 := by norm_num
    rw [hk', hkv, List.length_take, e2]
    rw [e2] at hle
    exact Nat.min_eq_left hle

/-- C9 (implicit): the 65535-byte limit on `idempotency_key` is not enforced;
for a record whose key is longer than 65535 bytes, `encode` writes the two
`key_len` bytes (payload offsets 9 and 10) as the length reduced modulo
`2 ^ 16` (the `as u16` cast), so the declared key length disagrees with the
key bytes actually written and `decode(encode(rec))` never returns the
original record. -/
theorem encode_truncates_long_key (r : OutboxRecord)
    (h : r.idempotency_key.length > 65535) :
    slice r.encode 9 2 = leBytes 2 r.idempotency_key.length ∧
    leVal (leBytes 2 r.idempotency_key.length) = r.idempotency_key.length % 65536 ∧
    r.idempotency_key.length % 65536 ≠ r.idempotency_key.length ∧
    OutboxRecord.decode r.encode ≠ some r := by
  have e2 : (256 : Nat) ^ 2 = 65536 := by norm_num
  refine ⟨?_, ?_, ?_, ?_⟩
  · obtain ⟨key, stmt, ps, tg, ms⟩ := r
    have hsplit : OutboxRecord.encode ⟨key, stmt, ps, tg, ms⟩ =
        (leBytes 8 ms ++ [targetByte tg]) ++ (leBytes 2 key.length ++
          (key ++ (leBytes 4 stmt.length ++ (stmt ++
            (leBytes 4 ps.length ++ encodeParams ps))))) := by
      simp [OutboxRecord.encode, List.append_assoc]
    unfold slice
    rw [hsplit, List.drop_left' (by simp), List.take_left' (by simp)]
  · rw [leVal_leBytes, e2]
  · omega
  · intro hd
    have := decode_encode_key_length hd
    omega

/-- Witness for C9 at a concrete record with a 65536-byte key. -/
theorem encode_truncates_long_key_witness :
    (OutboxRecord.mk (List.replicate 65536 97) [] [] OutboxTarget.Active 0).idempotency_key.length
        > 65535 ∧
    OutboxRecord.decode (OutboxRecord.mk (List.replicate 65536 97) [] []
        OutboxTarget.Active 0).encode ≠
      some (OutboxRecord.mk (List.replicate 65536 97) [] [] OutboxTarget.Active 0) := by
  have hgt : (OutboxRecord.mk (List.replicate 65536 97) [] []
      OutboxTarget.Active 0).idempotency_key.length > 65535 := by
    show (List.replicate 65536 97).length > 65535
    rw [List.length_replicate]
    omega
  exact ⟨hgt, (encode_truncates_long_key _ hgt).2.2.2⟩

/-! ### C3: failover threshold behaviour under forced readiness -/

/-- C3: from the initial failover state (primary Active, all counters zero)
with forced readiness, exactly 3 ticks of `(active_ok = false,
passive_ok = true)` switch the primary to Passive; a further 4 ticks of
`(true, true)` leave it Passive; a 5th such tick recovers it to Active. -/
theorem failover_fail3_recover5 :
    (run_ticks true (fun _ _ => false) FailoverState.initial
        (List.replicate 3 (false, true))).primary = Cluster.Passive ∧
    (run_ticks true (fun _ _ => false)
        (run_ticks true (fun _ _ => false) FailoverState.initial
          (List.replicate 3 (false, true)))
        (List.replicate 4 (true, true))).primary = Cluster.Passive ∧
    (run_ticks true (fun _ _ => false)
        (run_ticks true (fun _ _ => false) FailoverState.initial
          (List.replicate 3 (false, true)))
        (List.replicate 5 (true, true))).primary = Cluster.Active := by
  refine ⟨?_, ?_, ?_⟩ <;> decide

/-! ### C1: watermark row id written by the two code paths -/

/-- C1 evidence: `ReplicationManager::write_watermark_for` (reached from
`write_watermark_cluster`, `replay_and_mark` and the `SyncWorker` heartbeat)
builds its watermark INSERT with row id `0`, while `DbClients::upsert_watermark`
builds it with row id `1`; the two paths therefore address different rows and
the write path contradicts the specified `id = 1`. -/
theorem watermark_row_id_mismatch :
    write_watermark_upsert_cql "ks" 7 42 =
      "INSERT INTO ks.repl_watermark (id, last_applied_log_id, heartbeat_ms) VALUES (0, 7, 42)" ∧
    upsert_watermark_cql "ks" 7 42 =
      "INSERT INTO \"ks\".repl_watermark (id, last_applied_log_id, heartbeat_ms) VALUES (1, 7, 42)" ∧
    write_watermark_upsert_cql "ks" 7 42 ≠ upsert_watermark_cql "ks" 7 42 := by
  refine ⟨?_, ?_, ?_⟩ <;> decide

/-! ### C8: keyspace quoting in built CQL statements -/

/-- C8 evidence: `DbClients::upsert_watermark` injects the keyspace through
`quote_ident`, but both statements built by
`ReplicationManager::write_watermark_for` embed the keyspace raw: for the
keyspace `my"ks` the CREATE TABLE text contains the unquoted, unescaped name
and differs from the `quote_ident` form the claim asserts. -/
theorem keyspace_quoting_mismatch :
    write_watermark_create_cql "my\"ks" =
      "CREATE TABLE IF NOT EXISTS my\"ks.repl_watermark (id tinyint PRIMARY KEY, last_applied_log_id bigint, heartbeat_ms bigint)" ∧
    write_watermark_create_cql "my\"ks" ≠
      "CREATE TABLE IF NOT EXISTS " ++ quote_ident "my\"ks" ++
        ".repl_watermark (id tinyint PRIMARY KEY, last_applied_log_id bigint, heartbeat_ms bigint)" ∧
    write_watermark_upsert_cql "my\"ks" 7 42 ≠
      "INSERT INTO " ++ quote_ident "my\"ks" ++
        ".repl_watermark (id, last_applied_log_id, heartbeat_ms) VALUES (0, 7, 42)" ∧
    upsert_watermark_cql "ks" 7 42 =
      "INSERT INTO " ++ quote_ident "ks" ++
        ".repl_watermark (id, last_applied_log_id, heartbeat_ms) VALUES (1, 7, 42)" := by
  refine ⟨?_, ?_, ?_, ?_⟩ <;> decide

/-! ### C10: write_simple silently drops failed writes without an outbox -/

/-- C10 (implicit): with no outbox configured, `enqueue` returns the error
`"outbox not configured"`, but `write_simple` discards every enqueue result:
for any pattern of per-target execute outcomes it leaves the manager
unchanged (nothing is persisted) and still returns `Ok` with the disjunction
of per-target successes — in particular `Ok(false)` when every target
fails. -/
theorem write_simple_drops_when_no_outbox (ks1 ks2 : Option String)
    (nowMs : Nat) (key cql : List Nat) (target : OutboxTarget)
    (execA execP : Bool) :
    (enqueue ⟨none, ks1, ks2⟩ nowMs (new_simple key cql target)).1 =
      Except.error "outbox not configured" ∧
    (write_simple ⟨none, ks1, ks2⟩ nowMs key cql target execA execP).1 =
      Except.ok (anyOkOf target execA execP) ∧
    (write_simple ⟨none, ks1, ks2⟩ nowMs key cql target execA execP).2 =
      (⟨none, ks1, ks2⟩ : ReplicationManager) ∧
    (write_simple ⟨none, ks1, ks2⟩ nowMs key cql target false false).1 =
      Except.ok false := by
  cases target <;> cases execA <;> cases execP <;>
    simp [write_simple, enqueue, anyOkOf, new_simple]

/-! ### Parsing infrastructure lemmas -/

theorem slice_take {l : List Nat} {k off n : Nat} (h : off + n ≤ k) :
    slice (l.take k) off n = slice l off n := by
  unfold slice
  rw [List.drop_take, List.take_take, Nat.min_eq_left (by omega)]

theorem frameAt_bounds {log : List Nat} {offset e : Nat} {rec : OutboxRecord}
    (h : frameAt log offset = some (e, rec)) :
    offset + HEADER_LEN ≤ e ∧ e ≤ log.length := by
  simp only [frameAt] at h
  split at h
  case isFalse => exact absurd h (by simp)
  case isTrue h1 =>
    split at h
    case isFalse => exact absurd h (by simp)
    case isTrue h2 =>
      split at h
      case isFalse => exact absurd h (by simp)
      case isTrue h3 =>
        split at h
        case h_2 => exact absurd h (by simp)
        case h_1 rec' hd =>
          injection h with h4
          injection h4 with h5 h6
          subst h5
          omega

theorem frameAt_take {log : List Nat} {k offset e : Nat} {rec : OutboxRecord}
    (h : frameAt (log.take k) offset = some (e, rec)) :
    frameAt log offset = some (e, rec) := by
  have hH : HEADER_LEN = 10 := rfl
  simp only [frameAt] at h ⊢
  split at h
  case isFalse => exact absurd h (by simp)
  case isTrue h1 =>
    rw [List.length_take] at h1
    have hk4 : offset + 4 ≤ k := by omega
    have hk2 : (offset + 4) + 2 ≤ k := by omega
    have hk6 : (offset + 6) + 4 ≤ k := by omega
    rw [slice_take hk4, slice_take hk2, slice_take hk6] at h
    rw [if_pos (by omega : offset + HEADER_LEN ≤ log.length)]
    split at h
    case isFalse h2 => exact absurd h (by simp)
    case isTrue h2 =>
      rw [if_pos h2]
      split at h
      case isFalse h3 => exact absurd h (by simp)
      case isTrue h3 =>
        rw [List.length_take] at h3
        rw [slice_take (by omega : offset + HEADER_LEN +
          leVal (slice log (offset + 6) 4) ≤ k)] at h
        rw [if_pos (by omega : offset + HEADER_LEN +
          leVal (slice log (offset + 6) 4) ≤ log.length)]
        exact h

/-! ### C5: torn-tail tolerance of read_from -/

theorem read_from_take_append (log : List Nat) (k : Nat) :
    ∀ (max offset : Nat), ∃ t,
      read_from log offset max = read_from (log.take k) offset max ++ t
  | 0, offset => ⟨[], rfl⟩
  | max + 1, offset => by
    rcases hf : frameAt (log.take k) offset with _ | ⟨e, rec⟩
    · exact ⟨read_from log offset (max + 1), by simp [read_from, hf]⟩
    · obtain ⟨t, ht⟩ := read_from_take_append log k max e
      refine ⟨t, ?_⟩
      simp only [read_from, hf, frameAt_take hf, ht, List.cons_append]

/-- C5: `read_from` never fails on malformed or truncated trailing data: on
given log content the parse loop always returns `Ok` (each malformed-trailer
case breaks and returns what was parsed), and for every truncation point `k`
the records parsed from the truncated log are a prefix of those parsed from
the full log — `read_from` on the truncation returns `Ok` of a prefix. -/
theorem read_from_torn_tail (log : List Nat) (cursor max k : Nat) :
    ∃ recs t, read_from_result (log.take k) cursor max = Except.ok recs ∧
      read_from log cursor max = recs ++ t := by
  obtain ⟨t, ht⟩ := read_from_take_append log k max cursor
  exact ⟨read_from (log.take k) cursor max, t, rfl, ht⟩

/-! ### C2: replay stops at the first failed apply -/

theorem runBatch_eq (applyOk : Nat × Nat × OutboxRecord → Bool) :
    ∀ (l : List (Nat × Nat × OutboxRecord)) (c : Nat),
      runBatch applyOk l c =
        ((l.takeWhile applyOk).foldl (fun _ f => f.2.1) c,
          (l.takeWhile applyOk).length)
  | [], c => rfl
  | f :: rest, c => by
    by_cases hf : applyOk f = true
    · simp [runBatch, hf, List.takeWhile_cons_of_pos, runBatch_eq applyOk rest f.2.1]
    · simp [runBatch, hf, List.takeWhile_cons_of_neg]

/-- C2: for every log content, cursor, batch bound and pattern of apply
outcomes, `replay_and_mark` applies records strictly in batch (append) order:
it processes exactly the longest all-successful batch head, leaves the cursor
at the end offset of the last successfully applied record (the fold below —
so never past the first failed record), and when the first record of the
batch fails to apply, the cursor is unchanged and `queue_len`
(`pending_count` at the cursor) after the call equals `queue_len` before. -/
theorem replay_stops_at_first_failure (log : List Nat) (cursor max : Nat)
    (applyOk : Nat × Nat × OutboxRecord → Bool) :
    (replay_and_mark log cursor max applyOk).2 =
      ((read_from log cursor max).takeWhile applyOk).length ∧
    (replay_and_mark log cursor max applyOk).1 =
      ((read_from log cursor max).takeWhile applyOk).foldl (fun _ f => f.2.1) cursor ∧
    (∀ f rest, read_from log cursor max = f :: rest → applyOk f = false →
      (replay_and_mark log cursor max applyOk).1 = cursor ∧
      pending_count log (replay_and_mark log cursor max applyOk).1 =
        pending_count log cursor) := by
  refine ⟨?_, ?_, ?_⟩
  · rw [replay_and_mark, runBatch_eq]
  · rw [replay_and_mark, runBatch_eq]
  · intro f rest hb hf
    have h1 : (replay_and_mark log cursor max applyOk).1 = cursor := by
      rw [replay_and_mark, hb, runBatch_eq, List.takeWhile_cons_of_neg (by simp [hf])]
      rfl
    exact ⟨h1, by rw [h1]⟩

/-- Witness for C2 on the concrete one-frame log `frame0` with an apply that
fails on the first record. -/
theorem replay_stops_at_first_failure_witness :
    read_from frame0 0 1 = [(0, 29, rec0)] ∧
    (replay_and_mark frame0 0 1 (fun _ => false)).1 = 0 ∧
    pending_count frame0 (replay_and_mark frame0 0 1 (fun _ => false)).1 =
      pending_count frame0 0 := by
  have h := (replay_stops_at_first_failure frame0 0 1 (fun _ => false)).2.2
    (0, 29, rec0) [] (by decide) rfl
  exact ⟨by decide, h.1, h.2⟩

/-! ### C7: cursor monotonicity across replay_and_mark calls -/

theorem read_from_mem_bounds (log : List Nat) :
    ∀ (max offset : Nat), ∀ f ∈ read_from log offset max,
      offset + HEADER_LEN ≤ f.2.1 ∧ f.2.1 ≤ log.length
  | 0, offset => by simp [read_from]
  | max + 1, offset => by
    intro f hf
    rcases hfa : frameAt log offset with _ | ⟨e, rec⟩
    · rw [read_from, hfa] at hf
      exact absurd hf (by simp)
    · rw [read_from, hfa] at hf
      have hb := frameAt_bounds hfa
      rcases List.mem_cons.mp hf with hh | ht
      · subst hh
        exact hb
      · have := read_from_mem_bounds log max e f ht
        omega

theorem foldl_cursor_cases (c : Nat) :
    ∀ (l : List (Nat × Nat × OutboxRecord)),
      l.foldl (fun _ f => f.2.1) c = c ∨
        ∃ f ∈ l, l.foldl (fun _ f => f.2.1) c = f.2.1
  | [] => Or.inl rfl
  | f :: rest => by
    rcases foldl_cursor_cases f.2.1 rest with h | ⟨g, hg, hh⟩
    · right
      exact ⟨f, by simp, by simp [h]⟩
    · right
      exact ⟨g, by simp [hg], by simp [hh]⟩

theorem replay_cursor_bounds (log : List Nat) (cursor max : Nat)
    (applyOk : Nat × Nat × OutboxRecord → Bool) (h : cursor ≤ log.length) :
    cursor ≤ (replay_and_mark log cursor max applyOk).1 ∧
    (replay_and_mark log cursor max applyOk).1 ≤ log.length := by
  rw [replay_and_mark, runBatch_eq]
  dsimp only
  rcases foldl_cursor_cases cursor ((read_from log cursor max).takeWhile applyOk)
    with he | ⟨f, hf, he⟩
  · rw [he]
    exact ⟨Nat.le_refl _, h⟩
  · have hfm : f ∈ read_from log cursor max := List.takeWhile_subset _ hf
    have hb := read_from_mem_bounds log max cursor f hfm
    rw [he]
    exact ⟨by omega, hb.2⟩

theorem cursorTrace_head (log : List Nat)
    (calls : List (Nat × (Nat × Nat × OutboxRecord → Bool))) (c : Nat) :
    (cursorTrace log calls c).head? = some c := by
  cases calls with
  | nil => rfl
  | cons p rest => cases p; rfl

/-- C7: starting from any cursor within the log (the invariant established at
`Outbox::open`, which initialises the cursor to 0), across any sequence of
`replay_and_mark` calls — each with its own batch bound and pattern of apply
successes and failures — the successive cursor values are monotonically
nondecreasing and never exceed the log's end offset. -/
theorem cursor_monotone_bounded (log : List Nat)
    (calls : List (Nat × (Nat × Nat × OutboxRecord → Bool))) (c0 : Nat)
    (h : c0 ≤ log.length) :
    List.Chain' (· ≤ ·) (cursorTrace log calls c0) ∧
    ∀ x ∈ cursorTrace log calls c0, x ≤ log.length := by
  induction calls generalizing c0 with
  | nil =>
    refine ⟨by simp [cursorTrace], ?_⟩
    intro x hx
    simp [cursorTrace] at hx
    omega
  | cons call rest ih =>
    obtain ⟨max, ap⟩ := call
    have hstep := replay_cursor_bounds log c0 max ap h
    have ihh := ih (replay_and_mark log c0 max ap).1 hstep.2
    constructor
    · rw [cursorTrace, List.chain'_cons']
      refine ⟨?_, ihh.1⟩
      intro y hy
      rw [cursorTrace_head] at hy
      cases hy
      exact hstep.1
    · intro x hx
      rw [cursorTrace] at hx
      rcases List.mem_cons.mp hx with hh | ht
      · omega
      · exact ihh.2 x ht

/-- Witness for C7 on the concrete log `frame0` with one all-successful
call. -/
theorem cursor_monotone_bounded_witness :
    (0 : Nat) ≤ frame0.length ∧
    List.Chain' (· ≤ ·) (cursorTrace frame0 [(1, fun _ => true)] 0) ∧
    ∀ x ∈ cursorTrace frame0 [(1, fun _ => true)] 0, x ≤ frame0.length := by
  have h := cursor_monotone_bounded frame0 [(1, fun _ => true)] 0 (by decide)
  exact ⟨by decide, h.1, h.2⟩

/-! ### Fuel adequacy certificates

`read_all` and `pending_count` fix the fuel at `log.length + 1`; the two
stability lemmas prove that any additional fuel leaves the value unchanged,
so this fuel faithfully models Rust's unbounded iteration. -/

theorem read_from_fuel_stable (log : List Nat) :
    ∀ (fuel offset m : Nat), log.length + 10 ≤ offset + 10 * fuel →
      read_from log offset (fuel + m) = read_from log offset fuel
  | 0, offset, m, h => by
    have hH : HEADER_LEN = 10 := rfl
    have hfa : frameAt log offset = none := by
      simp only [frameAt, if_neg (by omega : ¬ offset + HEADER_LEN ≤ log.length)]
    cases m with
    | zero => rfl
    | succ m' =>
      rw [Nat.zero_add]
      simp [read_from, hfa]
  | fuel + 1, offset, m, h => by
    have hH : HEADER_LEN = 10 := rfl
    rw [show fuel + 1 + m = (fuel + m) + 1 from by omega]
    rcases hfa : frameAt log offset with _ | ⟨e, rec⟩
    · simp [read_from, hfa]
    · have hbnd := frameAt_bounds hfa
      have hc : log.length + 10 ≤ e + 10 * fuel := by omega
      simp only [read_from, hfa]
      rw [read_from_fuel_stable log fuel e m hc]

theorem pendingAux_fuel_stable (log : List Nat) :
    ∀ (fuel offset m : Nat), log.length + 10 ≤ offset + 10 * fuel →
      pendingAux log offset (fuel + m) = pendingAux log offset fuel
  | 0, offset, m, h => by
    have hH : HEADER_LEN = 10 := rfl
    cases m with
    | zero => rfl
    | succ m' =>
      rw [Nat.zero_add]
      simp only [pendingAux, if_neg (by omega : ¬ offset + HEADER_LEN ≤ log.length)]
  | fuel + 1, offset, m, h => by
    have hH : HEADER_LEN = 10 := rfl
    rw [show fuel + 1 + m = (fuel + m) + 1 from by omega]
    by_cases h1 : offset + HEADER_LEN ≤ log.length
    · by_cases h2 : leVal (slice log offset 4) = OB_MAGIC ∧
          leVal (slice log (offset + 4) 2) = OB_VERSION
      · have hc : log.length + 10 ≤
            (offset + HEADER_LEN + leVal (slice log (offset + 6) 4)) + 10 * fuel := by
          omega
        simp only [pendingAux, if_pos h1, if_pos h2]
        rw [pendingAux_fuel_stable log fuel _ m hc]
      · simp only [pendingAux, if_pos h1, if_neg h2]
    · simp only [pendingAux, if_neg h1]

theorem read_all_fuel_adequate (log : List Nat) (offset m : Nat) :
    read_from log offset (log.length + 1 + m) = read_all log offset := by
  have h : log.length + 10 ≤ offset + 10 * (log.length + 1) := by omega
  exact read_from_fuel_stable log (log.length + 1) offset m h

theorem pending_count_fuel_adequate (log : List Nat) (cursor m : Nat) :
    pendingAux log cursor (log.length + 1 + m) = pending_count log cursor := by
  have h : log.length + 10 ≤ cursor + 10 * (log.length + 1) := by omega
  exact pendingAux_fuel_stable log (log.length + 1) cursor m h

/-! ### C6: pending_count versus the read_from parse -/

theorem pendingAux_eq_length_read_from (log : List Nat) :
    ∀ (fuel offset : Nat), cleanAux log offset fuel = true →
      pendingAux log offset fuel = (read_from log offset fuel).length
  | 0, _, _ => rfl
  | fuel + 1, offset, h => by
    by_cases h1 : offset + HEADER_LEN ≤ log.length
    · by_cases h2 : leVal (slice log offset 4) = OB_MAGIC ∧
          leVal (slice log (offset + 4) 2) = OB_VERSION
      · by_cases h3 : offset + HEADER_LEN + leVal (slice log (offset + 6) 4) ≤ log.length
        · rcases hd : OutboxRecord.decode
              (slice log (offset + HEADER_LEN) (leVal (slice log (offset + 6) 4)))
            with _ | rec
          · rw [cleanAux, if_pos h1, if_pos h2, if_pos h3, hd] at h
            exact absurd h (by simp)
          · have hrec : cleanAux log
                (offset + HEADER_LEN + leVal (slice log (offset + 6) 4)) fuel = true := by
              simpa only [cleanAux, if_pos h1, if_pos h2, if_pos h3, hd] using h
            have hfa : frameAt log offset =
                some (offset + HEADER_LEN + leVal (slice log (offset + 6) 4), rec) := by
              simp only [frameAt, if_pos h1, if_pos h2, if_pos h3, hd]
            have ih := pendingAux_eq_length_read_from log fuel
              (offset + HEADER_LEN + leVal (slice log (offset + 6) 4)) hrec
            simp only [pendingAux, if_pos h1, if_pos h2, read_from, hfa,
              List.length_cons, ih]
            omega
        · rw [cleanAux, if_pos h1, if_pos h2, if_neg h3] at h
          exact absurd h (by simp)
      · have hfa : frameAt log offset = none := by
          simp only [frameAt, if_pos h1, if_neg h2]
        simp only [pendingAux, if_pos h1, if_neg h2, read_from, hfa, List.length_nil]
    · have hfa : frameAt log offset = none := by
        simp only [frameAt, if_neg h1]
      simp only [pendingAux, if_neg h1, read_from, hfa, List.length_nil]

/-- C6 counterexample: on the concrete log `badLog` — a single frame with a
valid header (`plen = 1`) whose 1-byte payload is present but undecodable —
`pending_count` from cursor 0 counts 1 frame while `read_from(0, ∞)` returns
0 records, so the two disagree exactly on the tail the claim includes. -/
theorem pending_count_ne_read_from_badLog :
    pending_count badLog 0 = 1 ∧ (read_all badLog 0).length = 0 ∧
    pending_count badLog 0 ≠ (read_all badLog 0).length := by
  refine ⟨by decide, by decide, by decide⟩

/-- C6 amended: `pending_count` agrees with the number of records returned by
`read_from(cursor, ∞)` on every log whose header-driven scan from the cursor
never meets a frame with a valid header but a short or undecodable payload
(`cleanFrom`); on such a torn frame `pending_count` counts the frame while
`read_from` drops it, and the two can disagree. -/
theorem pending_count_eq_read_all_of_clean (log : List Nat) (cursor : Nat)
    (h : cleanFrom log cursor = true) :
    pending_count log cursor = (read_all log cursor).length :=
  pendingAux_eq_length_read_from log (log.length + 1) cursor h

/-- Witness for the amended C6 on the concrete clean one-frame log
`frame0`. -/
theorem pending_count_eq_read_all_of_clean_witness :
    cleanFrom frame0 0 = true ∧
    pending_count frame0 0 = (read_all frame0 0).length :=
  ⟨by decide, pending_count_eq_read_all_of_clean frame0 0 (by decide)⟩

end NayudBatch
